import Mathlib

/-!
# Verification of the Pokernow HUD statistics core

Shallow embedding of the repository's statistics pipeline
(`stats_processor.py`, with `poker_now.py` carrying the same logic):
`extract_player_id`, `parse_hands`, `process_hands`, `calculate_stats`.

Log lines are modelled as `List Char` (Python `str`), dictionaries as
insertion-ordered association lists (Python 3.7+ `dict` semantics),
`defaultdict(int)` / histogram defaultdicts as association lists read through
a zero default, and Python sets built by repeated `add` as
insertion-ordered duplicate-free lists (only membership and iteration
multiplicity matter downstream, both of which agree with set semantics).
`float` percentage arithmetic is modelled exactly over `ℚ`, with Python's
`round` (banker's rounding, round-half-to-even) modelled by `rhe`.
`extract_player_id` returns `Option`: `none` models the `IndexError`
Python raises on `"".split()[0]` for lines with no token and no `" @"`.
-/

namespace PokerHUD

/-- A raw log line (Python `str`). -/
abbrev Line := List Char

/-- A normalized player identity (lowercased string). -/
abbrev Player := List Char

/-- Python `str.isspace` on the ASCII whitespace characters that
`str.split()` (no separator) splits on. -/
def isWs (c : Char) : Bool :=
  c.toNat = 32 || c.toNat = 9 || c.toNat = 10 || c.toNat = 13 ||
    c.toNat = 11 || c.toNat = 12

/-- Python `str.lower` restricted to ASCII (the only characters the logs use). -/
def lowerChar (c : Char) : Char :=
  if 65 ≤ c.toNat ∧ c.toNat ≤ 90 then Char.ofNat (c.toNat + 32) else c

/-- Lowercase a whole string. -/
def lowerStr (s : List Char) : List Char := s.map lowerChar

/-- Python's substring containment test `needle in hay`. -/
def isSubstr (needle hay : List Char) : Bool :=
  match hay with
  | [] => needle.isEmpty
  | c :: t => needle.isPrefixOf (c :: t) || isSubstr needle t

/-- Python `hay.startswith(pre)`. -/
def pyStartsWith (pre s : List Char) : Bool := pre.isPrefixOf s

/-- Characters of `hay` strictly before the first occurrence of `needle`
(so `hay.take (hay.index needle)` when `needle` occurs in `hay`). -/
def takeBeforeSub (needle hay : List Char) : List Char :=
  match hay with
  | [] => []
  | c :: t => if needle.isPrefixOf (c :: t) then [] else c :: takeBeforeSub needle t

/-- Python `s.split()[0]`: first whitespace-delimited token, `none` when the
string has no token (where Python raises `IndexError`). -/
def firstToken (s : List Char) : Option (List Char) :=
  match s.dropWhile isWs with
  | [] => none
  | c :: t => some ((c :: t).takeWhile (fun x => !isWs x))

/-- Python `s.strip('"')`: drop all leading and trailing `"` characters. -/
def stripQuotes (s : List Char) : List Char :=
  ((s.dropWhile (fun c => c = '"')).reverse.dropWhile (fun c => c = '"')).reverse

/-- `extract_player_id` (stats_processor.py lines 6-10, poker_now.py 74-78):
if `" @"` occurs in the line, the slice `log[1 : log.index(" @")]` lowercased;
otherwise the first whitespace token, quote-stripped and lowercased.
`none` models the `IndexError` Python raises on `log.split()[0]` when the
line has no whitespace-delimited token. -/
def extract_player_id (log : Line) : Option Player :=
  if isSubstr (' ' :: '@' :: []) log then
    some (lowerStr ((takeBeforeSub (' ' :: '@' :: []) log).drop 1))
  else
    match firstToken log with
    | none => none
    | some tok => some (lowerStr (stripQuotes tok))

/-- State of the hand segmentation scan in `parse_hands`. -/
structure SegState where
  hands : List (List Line)
  in_hand : Bool
  current : List Line
deriving Repr, DecidableEq

/-- One iteration of the `parse_hands` loop body (stats_processor.py 18-27):
an `"-- ending"` line closes and flushes a non-empty hand; then the line is
appended when collection is (still) open; then an `"-- starting"` line opens
collection. -/
def segStep (st : SegState) (log : Line) : SegState :=
  let st :=
    if pyStartsWith ("-- ending".data) log then
      { st with
        in_hand := false
        hands := if st.current.isEmpty then st.hands else st.hands ++ [st.current]
        current := [] }
    else st
  let st := if st.in_hand then { st with current := st.current ++ [log] } else st
  if pyStartsWith ("-- starting".data) log then { st with in_hand := true } else st

/-- `parse_hands` (stats_processor.py 13-28): split a log stream into hands. -/
def parse_hands (logs : List Line) : List (List Line) :=
  (logs.foldl segStep ⟨[], false, []⟩).hands

/-- The current street of a hand. -/
inductive Street where
  | preflop | flop | turn | river
deriving Repr, DecidableEq

/-- The action keywords appearing in the two vocabularies
`actions = ["folds","calls","raises"]` and
`flop_actions = ["bets","checks","folds","calls","raises"]`. -/
inductive PAction where
  | folds | calls | raises | bets | checks
deriving Repr, DecidableEq

/-- The keyword text of an action. -/
def kw : PAction → List Char
  | .folds => "folds".data
  | .calls => "calls".data
  | .raises => "raises".data
  | .bets => "bets".data
  | .checks => "checks".data

/-- `actions = ["folds", "calls", "raises"]`. -/
def preflopVocab : List PAction := [.folds, .calls, .raises]

/-- `flop_actions = ["bets", "checks", "folds", "calls", "raises"]`. -/
def flopVocab : List PAction := [.bets, .checks, .folds, .calls, .raises]

/-- First value bound to key `k`, as Python `m[k]` / `m.get(k)` on an
insertion-ordered dict represented as an association list. -/
def alookup {α : Type} (m : List (Player × α)) (k : Player) : Option α :=
  match m with
  | [] => none
  | (k', v) :: t => if k' = k then some v else alookup t k

/-- Lookup with a default value (`defaultdict` read / `m[k] if k in m else d`). -/
def alookupD {α : Type} (m : List (Player × α)) (k : Player) (d : α) : α :=
  (alookup m k).getD d

/-- Python dict assignment `m[k] = v`: overwrite in place, else append. -/
def aset {α : Type} (m : List (Player × α)) (k : Player) (v : α) :
    List (Player × α) :=
  match m with
  | [] => [(k, v)]
  | (k', v') :: t => if k' = k then (k', v) :: t else (k', v') :: aset t k v

/-- Python `if player not in m: m[player] = v`. -/
def insertIfAbsent {α : Type} (m : List (Player × α)) (k : Player) (v : α) :
    List (Player × α) :=
  if (alookup m k).isSome then m else m ++ [(k, v)]

/-- Python `s.add(k)` on a set represented as an insertion-ordered list. -/
def sinsert (s : List Player) (k : Player) : List Player :=
  if k ∈ s then s else s ++ [k]

/-- The per-hand mutable state of the `process_hands` inner loop
(stats_processor.py 47-60). -/
structure HandState where
  hand_preflop : List (Player × PAction)
  raise_count : Nat
  hand_threebet : List (Player × PAction)
  hand_cbet : List (Player × PAction)
  street : Street
  first_raiser : Player
  preflop_raiser : Player
  possible_3bettors : List Player
  has_cbet : Bool
  players_shown : List Player
  players_collected : List Player
deriving Repr, DecidableEq

/-- The state at the top of a hand. -/
def initHand : HandState :=
  { hand_preflop := []
    raise_count := 0
    hand_threebet := []
    hand_cbet := []
    street := .preflop
    first_raiser := []
    preflop_raiser := []
    possible_3bettors := []
    has_cbet := false
    players_shown := []
    players_collected := [] }

/-- Body of `if action in log:` in the preflop pass
(stats_processor.py 75-88), for one matched keyword `a` of `player`. -/
def preflopAct (st : HandState) (player : Player) (a : PAction) : HandState :=
  let st :=
    if st.raise_count = 1 then
      { st with possible_3bettors := sinsert st.possible_3bettors player }
    else st
  let st := { st with hand_preflop := insertIfAbsent st.hand_preflop player a }
  if a = .raises then
    let st := { st with preflop_raiser := player, raise_count := st.raise_count + 1 }
    let st := if st.raise_count = 1 then { st with first_raiser := player } else st
    if st.raise_count = 2 then
      { st with hand_threebet := aset st.hand_threebet player .raises }
    else st
  else
    if st.raise_count = 2 ∧ player = st.first_raiser then
      { st with hand_threebet := aset st.hand_threebet player a }
    else st

/-- Extraction-then-act for one preflop keyword; the `none` branch of
`extract_player_id` is unreachable on lines that contain a keyword. -/
def actOnPre (log : Line) (st : HandState) (a : PAction) : HandState :=
  match extract_player_id log with
  | some player => preflopAct st player a
  | none => st

/-- The preflop pass `for action in actions: if action in log: ...`
(stats_processor.py 72-88): every matched keyword is acted on, in
vocabulary order (the loop has no `break`). -/
def preflopScan (st : HandState) (log : Line) : HandState :=
  preflopVocab.foldl
    (fun st a => if isSubstr (kw a) log then actOnPre log st a else st) st

/-- Body of `if action in log:` in the flop pass (stats_processor.py 94-104). -/
def flopAct (st : HandState) (player : Player) (a : PAction) : HandState :=
  if player = st.preflop_raiser ∧ (a = .bets ∨ a = .checks) then
    let st := { st with hand_cbet := aset st.hand_cbet player a }
    if a = .bets then { st with has_cbet := true } else st
  else if st.has_cbet then
    let st := { st with hand_cbet := aset st.hand_cbet player a }
    if a = .raises then { st with has_cbet := false } else st
  else st

/-- Extraction-then-act for one flop keyword. -/
def actOnFlop (log : Line) (st : HandState) (a : PAction) : HandState :=
  match extract_player_id log with
  | some player => flopAct st player a
  | none => st

/-- The flop pass `for action in flop_actions: ...` (stats_processor.py 91-104). -/
def flopScan (st : HandState) (log : Line) : HandState :=
  flopVocab.foldl
    (fun st a => if isSubstr (kw a) log then actOnFlop log st a else st) st

/-- Showdown and pot-collection detection (stats_processor.py 106-114). -/
def showdownScan (st : HandState) (log : Line) : HandState :=
  let st :=
    if isSubstr ("shows a".data) log then
      match extract_player_id log with
      | some p => { st with players_shown := sinsert st.players_shown p }
      | none => st
    else st
  if isSubstr ("collected".data) log && isSubstr ("from pot".data) log then
    match extract_player_id log with
    | some p => { st with players_collected := sinsert st.players_collected p }
    | none => st
  else st

/-- The street a line leaves the hand in, given the street before it: the
`startswith` if/elif chain of stats_processor.py 64-69, `"Flop"` then
`"Turn"` then `"River"`, first match wins, case-sensitive. -/
def streetOf (log : Line) (s : Street) : Street :=
  if pyStartsWith ("Flop".data) log then .flop
  else if pyStartsWith ("Turn".data) log then .turn
  else if pyStartsWith ("River".data) log then .river
  else s

/-- The three scanning passes of the per-line loop body, reading (but never
writing) `st.street`. -/
def scanActions (st : HandState) (log : Line) : HandState :=
  let st := if st.street = .preflop then preflopScan st log else st
  let st := if st.street = .flop then flopScan st log else st
  showdownScan st log

/-- One iteration of `for log in hand:` (stats_processor.py 62-114): the
street update runs first, then the preflop pass, the flop pass and the
showdown checks on the same line. -/
def stepLine (st : HandState) (log : Line) : HandState :=
  let st :=
    if pyStartsWith ("Flop".data) log then { st with street := Street.flop }
    else if pyStartsWith ("Turn".data) log then { st with street := Street.turn }
    else if pyStartsWith ("River".data) log then { st with street := Street.river }
    else st
  let st := if st.street = .preflop then preflopScan st log else st
  let st := if st.street = .flop then flopScan st log else st
  showdownScan st log

/-- Run the per-hand state machine over a whole hand. -/
def processHand (hand : List Line) : HandState :=
  hand.foldl stepLine initHand

/-- A `{action: 0 for action in ["folds","calls","raises"]}` histogram. -/
structure Hist3 where
  folds : Nat
  calls : Nat
  raises : Nat
deriving Repr, DecidableEq

instance : Zero Hist3 := ⟨⟨0, 0, 0⟩⟩

instance : Add Hist3 :=
  ⟨fun a b => ⟨a.folds + b.folds, a.calls + b.calls, a.raises + b.raises⟩⟩

theorem hist3_add_def (a b : Hist3) :
    a + b = ⟨a.folds + b.folds, a.calls + b.calls, a.raises + b.raises⟩ := rfl

theorem hist3_zero_def : (0 : Hist3) = ⟨0, 0, 0⟩ := rfl

instance : AddCommMonoid Hist3 where
  add_assoc a b c := by
    cases a; cases b; cases c
    simp [hist3_add_def, Nat.add_assoc]
  zero_add a := by cases a; simp [hist3_add_def, hist3_zero_def]
  add_zero a := by cases a; simp [hist3_add_def, hist3_zero_def]
  add_comm a b := by cases a; cases b; simp [hist3_add_def, Nat.add_comm]
  nsmul := nsmulRec

/-- A `{action: 0 for action in flop_actions}` histogram. -/
structure Hist5 where
  bets : Nat
  checks : Nat
  folds : Nat
  calls : Nat
  raises : Nat
deriving Repr, DecidableEq

instance : Zero Hist5 := ⟨⟨0, 0, 0, 0, 0⟩⟩

instance : Add Hist5 :=
  ⟨fun a b =>
    ⟨a.bets + b.bets, a.checks + b.checks, a.folds + b.folds,
      a.calls + b.calls, a.raises + b.raises⟩⟩

theorem hist5_add_def (a b : Hist5) :
    a + b = ⟨a.bets + b.bets, a.checks + b.checks, a.folds + b.folds,
      a.calls + b.calls, a.raises + b.raises⟩ := rfl

theorem hist5_zero_def : (0 : Hist5) = ⟨0, 0, 0, 0, 0⟩ := rfl

instance : AddCommMonoid Hist5 where
  add_assoc a b c := by
    cases a; cases b; cases c
    simp [hist5_add_def, Nat.add_assoc]
  zero_add a := by cases a; simp [hist5_add_def, hist5_zero_def]
  add_zero a := by cases a; simp [hist5_add_def, hist5_zero_def]
  add_comm a b := by cases a; cases b; simp [hist5_add_def, Nat.add_comm]
  nsmul := nsmulRec

/-- The one-increment histogram for a preflop action keyword, so that
`hist[action] += 1` is `hist + unitH3 action`. Keywords outside the
preflop vocabulary never reach a `Hist3` (Python would raise `KeyError`). -/
def unitH3 : PAction → Hist3
  | .folds => ⟨1, 0, 0⟩
  | .calls => ⟨0, 1, 0⟩
  | .raises => ⟨0, 0, 1⟩
  | _ => 0

/-- The one-increment histogram for a flop action keyword. -/
def unitH5 : PAction → Hist5
  | .bets => ⟨1, 0, 0, 0, 0⟩
  | .checks => ⟨0, 1, 0, 0, 0⟩
  | .folds => ⟨0, 0, 1, 0, 0⟩
  | .calls => ⟨0, 0, 0, 1, 0⟩
  | .raises => ⟨0, 0, 0, 0, 1⟩

/-- `defaultdict` increment `m[k] += δ` (default value 0). -/
def bump {V : Type} [Zero V] [Add V] (m : List (Player × V)) (k : Player)
    (δ : V) : List (Player × V) :=
  aset m k (alookupD m k 0 + δ)

/-- The six global accumulator dictionaries of `process_hands`
(stats_processor.py 38-44). -/
structure Globals where
  preflop : List (Player × Hist3)
  threebets : List (Player × Hist3)
  cbets : List (Player × Hist5)
  can_3bet : List (Player × Nat)
  showdowns : List (Player × Nat)
  showdown_wins : List (Player × Nat)
deriving Repr, DecidableEq

/-- All-empty global accumulators. -/
def initGlobals : Globals := ⟨[], [], [], [], [], []⟩

/-- Fold one finished hand's record into the global accumulators
(stats_processor.py 116-141): histogram increments for each per-hand map
entry, an eligible-3bet increment per possible 3-bettor, and — when at
least one player showed — showdown participations for every shower and
showdown wins for every shower who also collected (split pots included). -/
def applyHand (g : Globals) (h : HandState) : Globals :=
  let g := { g with
    preflop := h.hand_preflop.foldl
      (fun m (e : Player × PAction) => bump m e.1 (unitH3 e.2)) g.preflop }
  let g := { g with
    threebets := h.hand_threebet.foldl
      (fun m (e : Player × PAction) => bump m e.1 (unitH3 e.2)) g.threebets }
  let g := { g with
    cbets := h.hand_cbet.foldl
      (fun m (e : Player × PAction) => bump m e.1 (unitH5 e.2)) g.cbets }
  let g := { g with
    can_3bet := h.possible_3bettors.foldl (fun m p => bump m p 1) g.can_3bet }
  if h.players_shown.isEmpty then g
  else
    let g := { g with
      showdowns := h.players_shown.foldl (fun m p => bump m p 1) g.showdowns }
    { g with
      showdown_wins := h.players_shown.foldl
        (fun m p => if p ∈ h.players_collected then bump m p 1 else m)
        g.showdown_wins }

/-- `process_hands` (stats_processor.py 31-143). -/
def process_hands (hands : List (List Line)) : Globals :=
  hands.foldl (fun g hand => applyHand g (processHand hand)) initGlobals

/-- Python `round(q)`: round half to even, to an integer. -/
def rhe (q : ℚ) : ℤ :=
  let f := ⌊q⌋
  let r := q - f
  if r < 1 / 2 then f
  else if 1 / 2 < r then f + 1
  else if f % 2 = 0 then f else f + 1

/-- Python `round(q, n)`: round half to even at `n` decimal places. -/
def roundTo (q : ℚ) (n : Nat) : ℚ := (rhe (q * 10 ^ n) : ℚ) / 10 ^ n

/-- The per-player output record of `calculate_stats`
(stats_processor.py 189-197). -/
structure PlayerStats where
  total_hands : Nat
  vpip : ℤ
  pfr : ℤ
  threebet : ℤ
  went_to_showdown : ℚ
  showdown_win : ℚ
  tightness : ℚ
deriving Repr, DecidableEq

/-- The loop body of `calculate_stats` for one player of the preflop
histogram (stats_processor.py 152-197), with `h` that player's preflop
action histogram. Percentages are computed exactly over `ℚ` where the
Python uses `float`. -/
def statsFor (g : Globals) (player : Player) (h : Hist3) : PlayerStats :=
  let num_hands : Nat := h.folds + h.calls + h.raises
  let vpip : ℤ :=
    if num_hands > 0 then rhe (100 * ((h.calls : ℚ) + h.raises) / num_hands) else 0
  let pfr : ℤ :=
    if num_hands > 0 then rhe (100 * (h.raises : ℚ) / num_hands) else 0
  let threebet : ℤ :=
    if (alookup g.threebets player).isSome then
      if alookupD g.can_3bet player 0 > 0 then
        rhe (100 * ((alookupD g.threebets player 0).raises : ℚ) /
          (alookupD g.can_3bet player 0))
      else 0
    else 0
  let tightness : ℚ :=
    roundTo (((1 - (vpip : ℚ) / 100) * (1 / 2) + (1 - (pfr : ℚ) / 100) * (3 / 10)
      + (1 - (threebet : ℚ) / 100) * (1 / 5)) * 100) 1
  let player_showdowns : Nat :=
    if (alookup g.showdowns player).isSome then alookupD g.showdowns player 0 else 0
  let player_showdown_wins : Nat :=
    if (alookup g.showdown_wins player).isSome then
      alookupD g.showdown_wins player 0
    else 0
  let showdown_win_pct : ℚ :=
    if player_showdowns > 0 then
      roundTo ((player_showdown_wins : ℚ) / player_showdowns * 100) 2
    else 0
  let went_to_showdown_pct : ℚ :=
    if num_hands > 0 then roundTo ((player_showdowns : ℚ) / num_hands * 100) 2
    else 0
  { total_hands := num_hands
    vpip := vpip
    pfr := pfr
    threebet := threebet
    went_to_showdown := went_to_showdown_pct
    showdown_win := showdown_win_pct
    tightness := tightness }

/-- `calculate_stats` (stats_processor.py 146-198): one output record per
player of the preflop histogram, in its insertion order. -/
def calculate_stats (g : Globals) : List (Player × PlayerStats) :=
  g.preflop.map (fun e => (e.1, statsFor g e.1 e.2))

/-! ## Auxiliary definitions for the proofs -/

/-- Apply a list of per-player increments to a `defaultdict`. -/
def applyDelta {V : Type} [AddCommMonoid V] (m : List (Player × V))
    (es : List (Player × V)) : List (Player × V) :=
  es.foldl (fun m e => bump m e.1 e.2) m

/-- The total increment a list of entries contributes to player `p`. -/
def deltaOf {V : Type} [AddCommMonoid V] (es : List (Player × V)) (p : Player) : V :=
  ((es.filter (fun e => decide (e.1 = p))).map Prod.snd).sum

/-- Per-player preflop histogram increments of one hand. -/
def preEntries (h : HandState) : List (Player × Hist3) :=
  h.hand_preflop.map (fun e => (e.1, unitH3 e.2))

/-- Per-player threebet histogram increments of one hand. -/
def threeEntries (h : HandState) : List (Player × Hist3) :=
  h.hand_threebet.map (fun e => (e.1, unitH3 e.2))

/-- Per-player cbet histogram increments of one hand. -/
def cbetEntries (h : HandState) : List (Player × Hist5) :=
  h.hand_cbet.map (fun e => (e.1, unitH5 e.2))

/-- Per-player eligible-3bet increments of one hand. -/
def can3Entries (h : HandState) : List (Player × Nat) :=
  h.possible_3bettors.map (fun q => (q, 1))

/-- Per-player showdown-participation increments of one hand. -/
def sdEntries (h : HandState) : List (Player × Nat) :=
  h.players_shown.map (fun q => (q, 1))

/-- Per-player showdown-win increments of one hand. -/
def winEntries (h : HandState) : List (Player × Nat) :=
  (h.players_shown.filter (fun q => decide (q ∈ h.players_collected))).map
    (fun q => (q, 1))

/-- Invariant of the segmentation scan: no already-collected line (flushed
or pending) is an `"-- ending"` marker. -/
def SegInv (st : SegState) : Prop :=
  (∀ hand ∈ st.hands, ∀ l ∈ hand, pyStartsWith ("-- ending".data) l = false)
  ∧ ∀ l ∈ st.current, pyStartsWith ("-- ending".data) l = false

/-- Modelled from the spec (§4.2, "only the first matched in iteration
order is acted upon per category pass"): the preflop category pass as the
claim describes it, acting on at most the first matched keyword. -/
def preflopScanFirstMatchOnly (st : HandState) (log : Line) : HandState :=
  match preflopVocab.filter (fun a => isSubstr (kw a) log) with
  | [] => st
  | a :: _ => actOnPre log st a

/-- The concrete one-hand scenario of spec §8. -/
def demoLogs : List Line :=
  ["-- starting".data, "p1 raises to 6".data, "p2 calls 6".data,
   "p3 raises to 20".data, "p1 calls 20".data, "p2 folds".data,
   "Flop: ...".data, "p1 bets 10".data, "p3 folds".data, "-- ending".data]

/-- A log stream with a second `"-- starting"` marker inside an open hand. -/
def nestedStartLogs : List Line :=
  ["-- starting".data, "a".data, "-- starting".data, "b".data, "-- ending".data]

/-- A hand whose player `p2` shows and collects but never folds, calls or
raises preflop. -/
def showsOnlyLogs : List Line :=
  ["-- starting".data, "p1 raises to 5".data, "p2 shows a pair of Kings".data,
   "p2 collected 10 from pot".data, "-- ending".data]

/-- Two one-line hands, in one order. -/
def twoHandsA : List (List Line) := [["p1 raises 2".data], ["p2 calls 2".data]]

/-- The same two hands, in the other order. -/
def twoHandsB : List (List Line) := [["p2 calls 2".data], ["p1 raises 2".data]]

/-- Accumulators with one all-zero preflop histogram entry and nothing else. -/
def zeroCountersG : Globals := ⟨[("q".data, ⟨0, 0, 0⟩)], [], [], [], [], []⟩

/-- The accumulators `process_hands` produces on the hand of `demoLogs`. -/
def demoGlobals : Globals :=
  { preflop := [("p1".data, ⟨0, 0, 1⟩), ("p2".data, ⟨0, 1, 0⟩),
      ("p3".data, ⟨0, 0, 1⟩)]
    threebets := [("p3".data, ⟨0, 0, 1⟩), ("p1".data, ⟨0, 1, 0⟩)]
    cbets := []
    can_3bet := [("p2".data, 1), ("p3".data, 1)]
    showdowns := []
    showdown_wins := [] }

/-! ## Association-list lemmas -/

theorem alookup_aset {α : Type} (m : List (Player × α)) (k : Player) (v : α)
    (p : Player) :
    alookup (aset m k v) p = if k = p then some v else alookup m p := by
  induction m with
  | nil => simp [aset, alookup]
  | cons e t ih =>
    obtain ⟨k', v'⟩ := e
    by_cases hk : k' = k
    · subst hk
      by_cases hp : k' = p <;> simp [aset, alookup, hp]
    · by_cases hp : k' = p
      · subst hp
        have : ¬ k = k' := fun h => hk h.symm
        simp [aset, alookup, hk, this]
      · simp [aset, alookup, hk, hp, ih]

theorem alookup_append_left {α : Type} (m m' : List (Player × α)) (p : Player)
    (a : α) (h : alookup m p = some a) : alookup (m ++ m') p = some a := by
  induction m with
  | nil => simp [alookup] at h
  | cons e t ih =>
    obtain ⟨k', v'⟩ := e
    by_cases hp : k' = p
    · simp_all [alookup]
    · simp_all [alookup]

theorem alookup_insertIfAbsent {α : Type} (m : List (Player × α)) (k : Player)
    (v : α) (p : Player) (a : α) (h : alookup m p = some a) :
    alookup (insertIfAbsent m k v) p = some a := by
  unfold insertIfAbsent
  split
  · exact h
  · exact alookup_append_left m [(k, v)] p a h

theorem alookupD_bump {V : Type} [AddCommMonoid V] (m : List (Player × V))
    (k : Player) (δ : V) (p : Player) :
    alookupD (bump m k δ) p 0 = alookupD m p 0 + if k = p then δ else 0 := by
  unfold bump alookupD
  rw [alookup_aset]
  by_cases hp : k = p
  · subst hp; simp
  · simp [hp]

theorem isSome_bump {V : Type} [AddCommMonoid V] (m : List (Player × V))
    (k : Player) (δ : V) (p : Player) :
    (alookup (bump m k δ) p).isSome = ((alookup m p).isSome || decide (k = p)) := by
  unfold bump
  rw [alookup_aset]
  by_cases hp : k = p <;> simp [hp]

theorem alookup_of_isSome {V : Type} [Zero V] (m : List (Player × V))
    (p : Player) (h : (alookup m p).isSome = true) :
    alookup m p = some (alookupD m p 0) := by
  unfold alookupD
  cases e : alookup m p
  · rw [e] at h; simp at h
  · simp [e]

theorem alookup_ext_of {V : Type} [Zero V] (m₁ m₂ : List (Player × V))
    (p : Player) (h₁ : (alookup m₁ p).isSome = (alookup m₂ p).isSome)
    (h₂ : alookupD m₁ p 0 = alookupD m₂ p 0) :
    alookup m₁ p = alookup m₂ p := by
  cases e₁ : alookup m₁ p
  · cases e₂ : alookup m₂ p
    · rfl
    · rw [e₁, e₂] at h₁; simp at h₁
  · cases e₂ : alookup m₂ p
    · rw [e₁, e₂] at h₁; simp at h₁
    · unfold alookupD at h₂
      rw [e₁, e₂] at h₂
      simp_all

/-! ## Fold lemmas for the aggregation step -/

/-- `l.foldl` with a guarded body equals folding over the matching elements. -/
theorem foldl_ite_filter {α β : Type} (l : List α) (c : α → Bool)
    (f : β → α → β) (m : β) :
    l.foldl (fun m x => if c x then f m x else m) m = (l.filter c).foldl f m := by
  induction l generalizing m with
  | nil => rfl
  | cons x t ih =>
    by_cases hx : c x <;> simp [List.filter, hx, ih]

theorem alookupD_applyDelta {V : Type} [AddCommMonoid V]
    (es : List (Player × V)) (m : List (Player × V)) (p : Player) :
    alookupD (applyDelta m es) p 0 = alookupD m p 0 + deltaOf es p := by
  induction es generalizing m with
  | nil => simp [applyDelta, deltaOf]
  | cons e t ih =>
    obtain ⟨k, δ⟩ := e
    by_cases hp : k = p
    · subst hp
      simp [applyDelta, deltaOf, List.filter] at ih ⊢
      rw [ih, alookupD_bump]
      simp [add_assoc]
    · simp [applyDelta, deltaOf, List.filter, hp] at ih ⊢
      rw [ih, alookupD_bump]
      simp [hp]

theorem isSome_applyDelta {V : Type} [AddCommMonoid V]
    (es : List (Player × V)) (m : List (Player × V)) (p : Player) :
    (alookup (applyDelta m es) p).isSome
      = ((alookup m p).isSome || es.any (fun e => decide (e.1 = p))) := by
  induction es generalizing m with
  | nil => simp [applyDelta]
  | cons e t ih =>
    simp only [applyDelta, List.foldl_cons, List.any_cons] at ih ⊢
    rw [ih, isSome_bump]
    cases h : (alookup m p).isSome <;> simp [Bool.or_assoc]

/-! ## The increments one finished hand contributes to each accumulator -/

theorem applyHand_preflop (g : Globals) (h : HandState) :
    (applyHand g h).preflop = applyDelta g.preflop (preEntries h) := by
  unfold applyHand applyDelta preEntries
  rw [List.foldl_map]
  split <;> rfl

theorem applyHand_threebets (g : Globals) (h : HandState) :
    (applyHand g h).threebets = applyDelta g.threebets (threeEntries h) := by
  unfold applyHand applyDelta threeEntries
  rw [List.foldl_map]
  split <;> rfl

theorem applyHand_cbets (g : Globals) (h : HandState) :
    (applyHand g h).cbets = applyDelta g.cbets (cbetEntries h) := by
  unfold applyHand applyDelta cbetEntries
  rw [List.foldl_map]
  split <;> rfl

theorem applyHand_can_3bet (g : Globals) (h : HandState) :
    (applyHand g h).can_3bet = applyDelta g.can_3bet (can3Entries h) := by
  unfold applyHand applyDelta can3Entries
  rw [List.foldl_map]
  split <;> rfl

theorem applyHand_showdowns (g : Globals) (h : HandState) :
    (applyHand g h).showdowns = applyDelta g.showdowns (sdEntries h) := by
  unfold applyHand applyDelta sdEntries
  rw [List.foldl_map]
  split
  · next hempty =>
    rw [List.isEmpty_iff.mp hempty]
    rfl
  · rfl

theorem applyHand_showdown_wins (g : Globals) (h : HandState) :
    (applyHand g h).showdown_wins = applyDelta g.showdown_wins (winEntries h) := by
  unfold applyHand applyDelta winEntries
  rw [List.foldl_map, ← foldl_ite_filter]
  split
  · next hempty =>
    rw [List.isEmpty_iff.mp hempty]
    rfl
  · simp only [decide_eq_true_eq]

/-! ## Accumulator lookups over a whole session -/

theorem alookupD_process_proj {V : Type} [AddCommMonoid V]
    (proj : Globals → List (Player × V)) (ent : HandState → List (Player × V))
    (hp : ∀ g h, proj (applyHand g h) = applyDelta (proj g) (ent h))
    (hs : List (List Line)) (g : Globals) (p : Player) :
    alookupD (proj (hs.foldl (fun g hand => applyHand g (processHand hand)) g)) p 0
      = alookupD (proj g) p 0
        + (hs.map (fun hand => deltaOf (ent (processHand hand)) p)).sum := by
  induction hs generalizing g with
  | nil => simp
  | cons hd tl ih =>
    simp only [List.foldl_cons, List.map_cons, List.sum_cons]
    rw [ih, hp, alookupD_applyDelta, add_assoc]

theorem isSome_process_proj {V : Type} [AddCommMonoid V]
    (proj : Globals → List (Player × V)) (ent : HandState → List (Player × V))
    (hp : ∀ g h, proj (applyHand g h) = applyDelta (proj g) (ent h))
    (hs : List (List Line)) (g : Globals) (p : Player) :
    (alookup (proj (hs.foldl (fun g hand => applyHand g (processHand hand)) g)) p).isSome
      = ((alookup (proj g) p).isSome
        || hs.any (fun hand => (ent (processHand hand)).any (fun e => decide (e.1 = p)))) := by
  induction hs generalizing g with
  | nil => simp
  | cons hd tl ih =>
    simp only [List.foldl_cons, List.any_cons]
    rw [ih, hp, isSome_applyDelta, Bool.or_assoc]

/-- Permutation invariance of `List.any`. -/
theorem any_perm_congr {α : Type} {l₁ l₂ : List α} (h : l₁.Perm l₂)
    (f : α → Bool) : l₁.any f = l₂.any f := by
  cases e : l₂.any f
  · simp only [List.any_eq_false] at e ⊢
    intro x hx
    exact e x (h.mem_iff.mp hx)
  · simp only [List.any_eq_true] at e ⊢
    obtain ⟨x, hx, hfx⟩ := e
    exact ⟨x, h.mem_iff.mpr hx, hfx⟩

/-! ## The per-line state machine: street handling -/

theorem street_preflopAct (st : HandState) (p : Player) (a : PAction) :
    (preflopAct st p a).street = st.street := by
  simp [preflopAct, apply_ite HandState.street]

theorem street_actOnPre (log : Line) (st : HandState) (a : PAction) :
    (actOnPre log st a).street = st.street := by
  unfold actOnPre
  cases extract_player_id log
  · rfl
  · exact street_preflopAct ..

theorem street_preStep (log : Line) (st : HandState) (a : PAction) :
    ((if isSubstr (kw a) log then actOnPre log st a else st)).street = st.street := by
  split
  · exact street_actOnPre ..
  · rfl

theorem street_preflopScan (st : HandState) (log : Line) :
    (preflopScan st log).street = st.street := by
  simp only [preflopScan, preflopVocab, List.foldl]
  rw [street_preStep, street_preStep, street_preStep]

theorem street_flopAct (st : HandState) (p : Player) (a : PAction) :
    (flopAct st p a).street = st.street := by
  simp [flopAct, apply_ite HandState.street]

theorem street_actOnFlop (log : Line) (st : HandState) (a : PAction) :
    (actOnFlop log st a).street = st.street := by
  unfold actOnFlop
  cases extract_player_id log
  · rfl
  · exact street_flopAct ..

theorem street_flopStep (log : Line) (st : HandState) (a : PAction) :
    ((if isSubstr (kw a) log then actOnFlop log st a else st)).street = st.street := by
  split
  · exact street_actOnFlop ..
  · rfl

theorem street_flopScan (st : HandState) (log : Line) :
    (flopScan st log).street = st.street := by
  simp only [flopScan, flopVocab, List.foldl]
  rw [street_flopStep, street_flopStep, street_flopStep, street_flopStep,
    street_flopStep]

theorem street_showdownScan (st : HandState) (log : Line) :
    (showdownScan st log).street = st.street := by
  unfold showdownScan
  cases h : extract_player_id log <;> simp [h, apply_ite HandState.street]

theorem street_scanActions (st : HandState) (log : Line) :
    (scanActions st log).street = st.street := by
  simp only [scanActions]
  rw [street_showdownScan]
  split <;> split <;> simp [street_preflopScan, street_flopScan]

/-- The per-line loop body factors as: update the street from the line's
prefix, then run the action scans under the already-updated street. -/
theorem stepLine_eq_scanActions (st : HandState) (log : Line) :
    stepLine st log = scanActions { st with street := streetOf log st.street } log := by
  simp only [stepLine, scanActions, streetOf]
  by_cases h₁ : pyStartsWith ("Flop".data) log = true <;>
    by_cases h₂ : pyStartsWith ("Turn".data) log = true <;>
      by_cases h₃ : pyStartsWith ("River".data) log = true <;>
        simp [h₁, h₂, h₃]

theorem street_stepLine (st : HandState) (log : Line) :
    (stepLine st log).street = streetOf log st.street := by
  rw [stepLine_eq_scanActions, street_scanActions]

/-- A line that begins with none of the three street markers leaves the
street unchanged. -/
theorem streetOf_neutral (log : Line) (s : Street)
    (h₁ : pyStartsWith ("Flop".data) log = false)
    (h₂ : pyStartsWith ("Turn".data) log = false)
    (h₃ : pyStartsWith ("River".data) log = false) :
    streetOf log s = s := by
  unfold streetOf
  rw [h₁, h₂, h₃]
  rfl

theorem street_foldl_neutral (rest : List Line) (st : HandState)
    (h : ∀ l ∈ rest, pyStartsWith ("Flop".data) l = false
      ∧ pyStartsWith ("Turn".data) l = false
      ∧ pyStartsWith ("River".data) l = false) :
    (rest.foldl stepLine st).street = st.street := by
  induction rest generalizing st with
  | nil => rfl
  | cons l t ih =>
    obtain ⟨h₁, h₂, h₃⟩ := h l (List.mem_cons_self ..)
    rw [List.foldl_cons, ih _ (fun x hx => h x (List.mem_cons_of_mem _ hx)),
      street_stepLine, streetOf_neutral _ _ h₁ h₂ h₃]

/-! ## The per-line state machine: the first preflop action is sticky -/

theorem hand_preflop_preflopAct (st : HandState) (q : Player) (b : PAction) :
    (preflopAct st q b).hand_preflop = insertIfAbsent st.hand_preflop q b := by
  simp [preflopAct, apply_ite HandState.hand_preflop]

theorem hand_preflop_flopAct (st : HandState) (q : Player) (b : PAction) :
    (flopAct st q b).hand_preflop = st.hand_preflop := by
  simp [flopAct, apply_ite HandState.hand_preflop]

theorem hand_preflop_showdownScan (st : HandState) (log : Line) :
    (showdownScan st log).hand_preflop = st.hand_preflop := by
  unfold showdownScan
  cases h : extract_player_id log <;> simp [h, apply_ite HandState.hand_preflop]

theorem preflop_binding_actOnPre (log : Line) (st : HandState) (a : PAction)
    (p : Player) (v : PAction) (h : alookup st.hand_preflop p = some v) :
    alookup (actOnPre log st a).hand_preflop p = some v := by
  unfold actOnPre
  cases extract_player_id log
  · exact h
  · rw [hand_preflop_preflopAct]
    exact alookup_insertIfAbsent _ _ _ _ _ h

theorem preflop_binding_preStep (log : Line) (st : HandState) (a : PAction)
    (p : Player) (v : PAction) (h : alookup st.hand_preflop p = some v) :
    alookup ((if isSubstr (kw a) log then actOnPre log st a else st)).hand_preflop p
      = some v := by
  split
  · exact preflop_binding_actOnPre _ _ _ _ _ h
  · exact h

theorem preflop_binding_preflopScan (log : Line) (st : HandState)
    (p : Player) (v : PAction) (h : alookup st.hand_preflop p = some v) :
    alookup (preflopScan st log).hand_preflop p = some v := by
  simp only [preflopScan, preflopVocab, List.foldl]
  exact preflop_binding_preStep _ _ _ _ _
    (preflop_binding_preStep _ _ _ _ _ (preflop_binding_preStep _ _ _ _ _ h))

theorem preflop_binding_flopStep (log : Line) (st : HandState) (a : PAction)
    (p : Player) (v : PAction) (h : alookup st.hand_preflop p = some v) :
    alookup ((if isSubstr (kw a) log then actOnFlop log st a else st)).hand_preflop p
      = some v := by
  unfold actOnFlop
  split
  · cases extract_player_id log
    · exact h
    · rw [hand_preflop_flopAct]; exact h
  · exact h

theorem preflop_binding_flopScan (log : Line) (st : HandState)
    (p : Player) (v : PAction) (h : alookup st.hand_preflop p = some v) :
    alookup (flopScan st log).hand_preflop p = some v := by
  simp only [flopScan, flopVocab, List.foldl]
  exact preflop_binding_flopStep _ _ _ _ _
    (preflop_binding_flopStep _ _ _ _ _
      (preflop_binding_flopStep _ _ _ _ _
        (preflop_binding_flopStep _ _ _ _ _
          (preflop_binding_flopStep _ _ _ _ _ h))))

theorem preflop_binding_scanActions (st : HandState) (log : Line)
    (p : Player) (v : PAction) (h : alookup st.hand_preflop p = some v) :
    alookup (scanActions st log).hand_preflop p = some v := by
  simp only [scanActions]
  rw [hand_preflop_showdownScan]
  have h₁ : alookup
      (if st.street = Street.preflop then preflopScan st log else st).hand_preflop p
        = some v := by
    split
    · exact preflop_binding_preflopScan _ _ _ _ h
    · exact h
  generalize (if st.street = Street.preflop then preflopScan st log else st) = st₁
    at h₁ ⊢
  split
  · exact preflop_binding_flopScan _ _ _ _ h₁
  · exact h₁

theorem preflop_binding_stepLine (st : HandState) (log : Line)
    (p : Player) (v : PAction) (h : alookup st.hand_preflop p = some v) :
    alookup (stepLine st log).hand_preflop p = some v := by
  rw [stepLine_eq_scanActions]
  exact preflop_binding_scanActions _ _ _ _ h

/-! ## The hand segmenter never stores an ending marker -/

theorem segStep_hands (st : SegState) (log : Line) :
    (segStep st log).hands =
      if pyStartsWith ("-- ending".data) log then
        (if st.current.isEmpty then st.hands else st.hands ++ [st.current])
      else st.hands := by
  simp only [segStep]
  by_cases h₁ : pyStartsWith ("-- ending".data) log = true <;>
    by_cases h₂ : pyStartsWith ("-- starting".data) log = true <;>
      by_cases h₃ : st.in_hand = true <;> simp [h₁, h₂, h₃]

theorem segStep_current (st : SegState) (log : Line) :
    (segStep st log).current =
      if pyStartsWith ("-- ending".data) log then []
      else if st.in_hand then st.current ++ [log] else st.current := by
  simp only [segStep]
  by_cases h₁ : pyStartsWith ("-- ending".data) log = true <;>
    by_cases h₂ : pyStartsWith ("-- starting".data) log = true <;>
      by_cases h₃ : st.in_hand = true <;> simp [h₁, h₂, h₃]

theorem segStep_inv (st : SegState) (log : Line) (h : SegInv st) :
    SegInv (segStep st log) := by
  obtain ⟨hh, hc⟩ := h
  constructor
  · intro hand hm l hl
    rw [segStep_hands] at hm
    split at hm
    · split at hm
      · exact hh hand hm l hl
      · rcases List.mem_append.mp hm with hm' | hm'
        · exact hh hand hm' l hl
        · have he : hand = st.current := List.mem_singleton.mp hm'
          exact hc l (he ▸ hl)
    · exact hh hand hm l hl
  · intro l hl
    rw [segStep_current] at hl
    split at hl
    · simp at hl
    · next hend =>
      split at hl
      · rcases List.mem_append.mp hl with hl' | hl'
        · exact hc l hl'
        · have he : l = log := List.mem_singleton.mp hl'
          subst he
          simpa using hend
      · exact hc l hl

theorem foldl_segStep_inv (logs : List Line) (st : SegState) (h : SegInv st) :
    SegInv (logs.foldl segStep st) := by
  induction logs generalizing st with
  | nil => exact h
  | cons l t ih => exact ih _ (segStep_inv _ _ h)

theorem parse_hands_no_ending (logs : List Line) (hand : List Line)
    (hm : hand ∈ parse_hands logs) (l : Line) (hl : l ∈ hand) :
    pyStartsWith ("-- ending".data) l = false := by
  have hinv : SegInv (logs.foldl segStep ⟨[], false, []⟩) :=
    foldl_segStep_inv logs ⟨[], false, []⟩ ⟨by simp, by simp⟩
  exact hinv.1 hand hm l hl

/-! ## Totality boundary of `extract_player_id` -/

theorem not_ws_head_dropWhile (s : List Char) (c : Char) (t : List Char)
    (h : s.dropWhile isWs = c :: t) : isWs c = false := by
  induction s with
  | nil => simp [List.dropWhile] at h
  | cons x xs ih =>
    by_cases hx : isWs x = true
    · rw [List.dropWhile_cons, if_pos hx] at h
      exact ih h
    · rw [List.dropWhile_cons, if_neg hx] at h
      cases h
      simpa using hx

theorem mem_of_dropWhile_cons (s : List Char) (c : Char) (t : List Char)
    (h : s.dropWhile isWs = c :: t) : c ∈ s := by
  have hsub : List.Sublist (s.dropWhile isWs) s := List.dropWhile_sublist _
  exact hsub.subset (h ▸ List.mem_cons_self c t)

/-! ## Comparing and permuting accumulated counters -/

theorem alookupD_nil {α : Type} (p : Player) (d : α) :
    alookupD ([] : List (Player × α)) p d = d := rfl

theorem deltaOf_map_one (l : List Player) (p : Player) :
    deltaOf (l.map (fun q => (q, (1 : Nat)))) p
      = (l.filter (fun q => decide (q = p))).length := by
  induction l with
  | nil => rfl
  | cons x t ih =>
    unfold deltaOf at ih ⊢
    by_cases hx : x = p
    · simp only [List.map_cons, List.filter_cons, hx, List.sum_cons,
        List.length_cons] at ih ⊢
      simp [ih]
      omega
    · simp only [List.map_cons, List.filter_cons, hx, List.sum_cons,
        List.length_cons] at ih ⊢
      simp [ih]

theorem deltaOf_win_le_sd (h : HandState) (p : Player) :
    deltaOf (winEntries h) p ≤ deltaOf (sdEntries h) p := by
  unfold winEntries sdEntries
  rw [deltaOf_map_one, deltaOf_map_one]
  exact ((List.filter_sublist _).filter _).length_le

theorem process_lookup_perm {V : Type} [AddCommMonoid V]
    (proj : Globals → List (Player × V)) (ent : HandState → List (Player × V))
    (hp : ∀ g h, proj (applyHand g h) = applyDelta (proj g) (ent h))
    (hs₁ hs₂ : List (List Line)) (hperm : hs₁.Perm hs₂) (p : Player) :
    alookup (proj (process_hands hs₁)) p = alookup (proj (process_hands hs₂)) p := by
  apply alookup_ext_of
  · unfold process_hands
    rw [isSome_process_proj proj ent hp, isSome_process_proj proj ent hp,
      any_perm_congr hperm]
  · unfold process_hands
    rw [alookupD_process_proj proj ent hp, alookupD_process_proj proj ent hp,
      List.Perm.sum_eq (hperm.map _)]

/-! ## The claims -/

/-- C1: a line beginning with `"Flop"`, `"Turn"` or `"River"` (in that
order, first match wins) updates the street before any action scanning of
that same line — the scans run on the state whose street is already
`streetOf log`, and the new street persists over all subsequent
marker-free lines of the hand. -/
theorem c1_street_transition_semantics (st : HandState) (log : Line)
    (rest : List Line)
    (hrest : ∀ l ∈ rest, pyStartsWith ("Flop".data) l = false
      ∧ pyStartsWith ("Turn".data) l = false
      ∧ pyStartsWith ("River".data) l = false) :
    (stepLine st log).street = streetOf log st.street
    ∧ stepLine st log = scanActions { st with street := streetOf log st.street } log
    ∧ (rest.foldl stepLine (stepLine st log)).street = streetOf log st.street := by
  refine ⟨street_stepLine st log, stepLine_eq_scanActions st log, ?_⟩
  rw [street_foldl_neutral rest _ hrest, street_stepLine]

/-- Witness for C1: a concrete flop-marker line followed by a marker-free
betting line. -/
theorem c1_street_transition_witness :
    (stepLine initHand ("Flop: ...".data)).street
        = streetOf ("Flop: ...".data) initHand.street
    ∧ stepLine initHand ("Flop: ...".data)
        = scanActions { initHand with street := streetOf ("Flop: ...".data) initHand.street }
            ("Flop: ...".data)
    ∧ (([("p1 bets 2".data)] : List Line).foldl stepLine
          (stepLine initHand ("Flop: ...".data))).street
        = streetOf ("Flop: ...".data) initHand.street :=
  c1_street_transition_semantics initHand ("Flop: ...".data) [("p1 bets 2".data)]
    (by decide)

/-- C2 counterexample: on the line `"p1 calls and raises"`, which contains
both `"calls"` and `"raises"`, the preflop pass does not stop after the
first matched keyword — the later `"raises"` also updates the state
(`raise_count` becomes 1), and the update is observable in the final
accumulators (`can_3bet` credits `p2` in a follow-up hand). -/
theorem c2_first_match_only_counterexample :
    preflopScan initHand ("p1 calls and raises".data)
        ≠ preflopScanFirstMatchOnly initHand ("p1 calls and raises".data)
    ∧ (preflopScan initHand ("p1 calls and raises".data)).raise_count = 1
    ∧ (preflopScanFirstMatchOnly initHand ("p1 calls and raises".data)).raise_count = 0
    ∧ alookupD (process_hands
        [[("p1 calls and raises".data), ("p2 raises 10".data)]]).can_3bet
        ("p2".data) 0 = 1 := by
  decide

/-- C2 amended: every keyword of the category vocabulary contained in the
line is acted upon, in the fixed iteration order (the loop has no `break`);
keywords not contained in the line produce no update. -/
theorem c2_every_match_acted (st : HandState) (log : Line) :
    preflopScan st log
        = (preflopVocab.filter (fun a => isSubstr (kw a) log)).foldl (actOnPre log) st
    ∧ flopScan st log
        = (flopVocab.filter (fun a => isSubstr (kw a) log)).foldl (actOnFlop log) st := by
  constructor
  · unfold preflopScan
    rw [foldl_ite_filter]
  · unfold flopScan
    rw [foldl_ite_filter]

/-- C3 counterexample: a `"-- starting"` marker arriving while a hand is
already being collected is appended to that hand, so an emitted hand can
contain a marker line. -/
theorem c3_marker_in_hand_counterexample :
    ∃ hand ∈ parse_hands nestedStartLogs, ∃ l ∈ hand,
      (pyStartsWith ("-- starting".data) l || pyStartsWith ("-- ending".data) l)
        = true := by
  decide

/-- C3 amended: `"-- ending"` marker lines never appear inside any emitted
hand, and the `"-- starting"` line that opens collection is excluded; but a
`"-- starting"` line arriving while a hand is already open is appended to
that open hand. -/
theorem c3_no_ending_marker_in_hands :
    (∀ logs : List Line, ∀ hand ∈ parse_hands logs, ∀ l ∈ hand,
      pyStartsWith ("-- ending".data) l = false)
    ∧ parse_hands nestedStartLogs = [["a".data, "-- starting".data, "b".data]] := by
  constructor
  · intro logs hand hm l hl
    exact parse_hands_no_ending logs hand hm l hl
  · decide

/-- Witness for C3: the amended exclusion applied to a concrete emitted
hand line. -/
theorem c3_no_ending_marker_witness :
    pyStartsWith ("-- ending".data) ("a".data) = false :=
  c3_no_ending_marker_in_hands.1 nestedStartLogs
    ["a".data, "-- starting".data, "b".data] (by decide) ("a".data) (by decide)

/-- C4 counterexample: on the empty line and on a whitespace-only line,
`extract_player_id` does not return an identity — Python raises
`IndexError` on `log.split()[0]` (modelled as `none`), so extraction is not
total. -/
theorem c4_extract_total_counterexample :
    extract_player_id ([] : Line) = none
    ∧ extract_player_id ([' '] : Line) = none := by
  decide

/-- C4 amended: extraction succeeds exactly on lines that contain `" @"`
or at least one non-whitespace character, and the result is always a
lowercased string; on empty or whitespace-only lines without `" @"` it
fails (Python `IndexError`, modelled as `none`). -/
theorem c4_extract_partial_totality (log : Line) :
    ((extract_player_id log).isSome = true
      ↔ (isSubstr (' ' :: '@' :: []) log = true ∨ ∃ c ∈ log, isWs c = false))
    ∧ ∀ r, extract_player_id log = some r → ∃ t, r = lowerStr t := by
  constructor
  · by_cases hat : isSubstr (' ' :: '@' :: []) log = true
    · simp [extract_player_id, hat]
    · have hat' : isSubstr (' ' :: '@' :: []) log = false := by simpa using hat
      cases hdw : log.dropWhile isWs with
      | nil =>
        have hnone : extract_player_id log = none := by
          simp [extract_player_id, hat', firstToken, hdw]
        rw [hnone]
        simp only [Option.isSome_none, Bool.false_eq_true, false_iff]
        rintro (h | ⟨c, hc, hws⟩)
        · rw [h] at hat'; exact absurd hat' (by simp)
        · have hcw := List.dropWhile_eq_nil_iff.mp hdw c hc
          simp [hws] at hcw
      | cons c t =>
        have hsome : (extract_player_id log).isSome = true := by
          simp [extract_player_id, hat', firstToken, hdw]
        rw [hsome]
        simp only [true_iff]
        exact Or.inr ⟨c, mem_of_dropWhile_cons _ _ _ hdw,
          not_ws_head_dropWhile _ _ _ hdw⟩
  · intro r hr
    unfold extract_player_id at hr
    split at hr
    · cases hr
      exact ⟨_, rfl⟩
    · cases hft : firstToken log with
      | none => rw [hft] at hr; exact absurd hr (by simp)
      | some tok =>
        rw [hft] at hr
        cases hr
        exact ⟨stripQuotes tok, rfl⟩

/-- Witness for C4: the amended totality applied at the line `"p1 folds"`. -/
theorem c4_extract_partial_totality_witness :
    ∃ t, ("p1".data : List Char) = lowerStr t :=
  (c4_extract_partial_totality ("p1 folds".data)).2 ("p1".data) (by decide)

/-- C5: once the per-hand preflop map binds a player to an action, no later
line of the hand changes that binding — the map keeps each player's first
preflop action. -/
theorem c5_first_preflop_action_sticky (hand : List Line) (st : HandState)
    (p : Player) (a : PAction) (h : alookup st.hand_preflop p = some a) :
    alookup (hand.foldl stepLine st).hand_preflop p = some a := by
  induction hand generalizing st with
  | nil => exact h
  | cons l t ih => exact ih _ (preflop_binding_stepLine _ _ _ _ h)

/-- Witness for C5: a recorded `calls` survives a later `raises` line by
the same player. -/
theorem c5_first_preflop_action_sticky_witness :
    alookup (([("p1 raises 99".data)] : List Line).foldl stepLine
      { initHand with hand_preflop := [("p1".data, PAction.calls)] }).hand_preflop
      ("p1".data) = some PAction.calls :=
  c5_first_preflop_action_sticky [("p1 raises 99".data)]
    { initHand with hand_preflop := [("p1".data, PAction.calls)] }
    ("p1".data) PAction.calls (by decide)

/-- C6: over any input line sequence the full pipeline keeps every player's
showdown-win count at or below their showdown-participation count — a win
is only recorded for a player who also showed, once per hand. -/
theorem c6_showdown_wins_le_showdowns (logs : List Line) (p : Player) :
    alookupD (process_hands (parse_hands logs)).showdown_wins p 0
      ≤ alookupD (process_hands (parse_hands logs)).showdowns p 0 := by
  unfold process_hands
  rw [alookupD_process_proj Globals.showdown_wins winEntries
      applyHand_showdown_wins,
    alookupD_process_proj Globals.showdowns sdEntries applyHand_showdowns]
  simp only [initGlobals, alookupD_nil, Nat.zero_add]
  exact List.sum_le_sum (fun hand _ => deltaOf_win_le_sd (processHand hand) p)

/-- C7: the full pipeline on the concrete one-hand scenario yields exactly
the stats of spec §8: p1 ↦ (VPIP 100, PFR 100, 3Bet 0, Tightness 20.0),
p2 ↦ (100, 0, 0, 50.0), p3 ↦ (100, 100, 100, 0.0), and every showdown
statistic is 0 / 0.0. -/
theorem c7_concrete_scenario :
    calculate_stats (process_hands (parse_hands demoLogs)) =
      [("p1".data,
        { total_hands := 1, vpip := 100, pfr := 100, threebet := 0,
          went_to_showdown := 0, showdown_win := 0, tightness := 20 }),
       ("p2".data,
        { total_hands := 1, vpip := 100, pfr := 0, threebet := 0,
          went_to_showdown := 0, showdown_win := 0, tightness := 50 }),
       ("p3".data,
        { total_hands := 1, vpip := 100, pfr := 100, threebet := 100,
          went_to_showdown := 0, showdown_win := 0, tightness := 0 })] := by
  have hg : process_hands (parse_hands demoLogs) = demoGlobals := by decide
  have e₁ : alookup demoGlobals.threebets ("p1".data) = some ⟨0, 1, 0⟩ := by decide
  have e₂ : alookup demoGlobals.can_3bet ("p1".data) = none := by decide
  have e₃ : alookup demoGlobals.threebets ("p2".data) = none := by decide
  have e₄ : alookup demoGlobals.threebets ("p3".data) = some ⟨0, 0, 1⟩ := by decide
  have e₅ : alookup demoGlobals.can_3bet ("p3".data) = some 1 := by decide
  have e₆ : ∀ p : Player, alookup demoGlobals.showdowns p = none := fun _ => rfl
  have e₇ : ∀ p : Player, alookup demoGlobals.showdown_wins p = none := fun _ => rfl
  rw [hg]
  show [(("p1".data : Player), statsFor demoGlobals ("p1".data) ⟨0, 0, 1⟩),
    (("p2".data : Player), statsFor demoGlobals ("p2".data) ⟨0, 1, 0⟩),
    (("p3".data : Player), statsFor demoGlobals ("p3".data) ⟨0, 0, 1⟩)] = _
  simp only [List.cons.injEq, Prod.mk.injEq, and_true, true_and, List.nil_eq]
  refine ⟨?_, ?_, ?_⟩ <;>
    norm_num [statsFor, alookupD, e₁, e₂, e₃, e₄, e₅, e₆, e₇, rhe, roundTo]

/-- C8: permuting the list of hands leaves every per-player entry of all
six final accumulator maps unchanged (both presence and value), so the
cross-hand aggregation is order-insensitive. -/
theorem c8_process_hands_perm_invariant (hs₁ hs₂ : List (List Line))
    (hperm : hs₁.Perm hs₂) (p : Player) :
    alookup (process_hands hs₁).preflop p = alookup (process_hands hs₂).preflop p
    ∧ alookup (process_hands hs₁).threebets p
        = alookup (process_hands hs₂).threebets p
    ∧ alookup (process_hands hs₁).cbets p = alookup (process_hands hs₂).cbets p
    ∧ alookup (process_hands hs₁).can_3bet p
        = alookup (process_hands hs₂).can_3bet p
    ∧ alookup (process_hands hs₁).showdowns p
        = alookup (process_hands hs₂).showdowns p
    ∧ alookup (process_hands hs₁).showdown_wins p
        = alookup (process_hands hs₂).showdown_wins p :=
  ⟨process_lookup_perm Globals.preflop preEntries applyHand_preflop
      hs₁ hs₂ hperm p,
   process_lookup_perm Globals.threebets threeEntries applyHand_threebets
      hs₁ hs₂ hperm p,
   process_lookup_perm Globals.cbets cbetEntries applyHand_cbets
      hs₁ hs₂ hperm p,
   process_lookup_perm Globals.can_3bet can3Entries applyHand_can_3bet
      hs₁ hs₂ hperm p,
   process_lookup_perm Globals.showdowns sdEntries applyHand_showdowns
      hs₁ hs₂ hperm p,
   process_lookup_perm Globals.showdown_wins winEntries applyHand_showdown_wins
      hs₁ hs₂ hperm p⟩

/-- Witness for C8: the two orders of two concrete one-line hands. -/
theorem c8_process_hands_perm_invariant_witness :
    alookup (process_hands twoHandsA).preflop ("p1".data)
        = alookup (process_hands twoHandsB).preflop ("p1".data)
    ∧ alookup (process_hands twoHandsA).threebets ("p1".data)
        = alookup (process_hands twoHandsB).threebets ("p1".data)
    ∧ alookup (process_hands twoHandsA).cbets ("p1".data)
        = alookup (process_hands twoHandsB).cbets ("p1".data)
    ∧ alookup (process_hands twoHandsA).can_3bet ("p1".data)
        = alookup (process_hands twoHandsB).can_3bet ("p1".data)
    ∧ alookup (process_hands twoHandsA).showdowns ("p1".data)
        = alookup (process_hands twoHandsB).showdowns ("p1".data)
    ∧ alookup (process_hands twoHandsA).showdown_wins ("p1".data)
        = alookup (process_hands twoHandsB).showdown_wins ("p1".data) :=
  c8_process_hands_perm_invariant twoHandsA twoHandsB
    (List.Perm.swap _ _ _) ("p1".data)

/-- C9: the percentage derivations of `calculate_stats` are guarded — VPIP,
PFR and Went-to-Showdown are 0 when the player's hand count is 0, 3Bet is 0
when the player is absent from the threebet histogram or has no eligible
3-bet hands, and Showdown Win is 0.0 when the showdown count is 0 — so the
listed entries never require a division by a zero counter. -/
theorem c9_calculate_stats_guards (g : Globals) (p : Player) (h : Hist3) :
    ((p, h) ∈ g.preflop → (p, statsFor g p h) ∈ calculate_stats g)
    ∧ (h.folds + h.calls + h.raises = 0 →
        (statsFor g p h).vpip = 0 ∧ (statsFor g p h).pfr = 0
          ∧ (statsFor g p h).went_to_showdown = 0)
    ∧ ((alookup g.threebets p = none ∨ alookupD g.can_3bet p 0 = 0) →
        (statsFor g p h).threebet = 0)
    ∧ (alookupD g.showdowns p 0 = 0 → (statsFor g p h).showdown_win = 0) := by
  refine ⟨?_, ?_, ?_, ?_⟩
  · intro hm
    exact List.mem_map.mpr ⟨(p, h), hm, rfl⟩
  · intro h0
    refine ⟨?_, ?_, ?_⟩ <;> simp [statsFor, h0]
  · rintro (hnone | hzero)
    · simp [statsFor, hnone]
    · by_cases hs : (alookup g.threebets p).isSome <;> simp [statsFor, hs, hzero]
  · intro h4
    by_cases hs : (alookup g.showdowns p).isSome <;> simp [statsFor, hs, h4]

/-- Witness for C9: all-zero counters for a single player. -/
theorem c9_calculate_stats_guards_witness :
    ("q".data, statsFor zeroCountersG ("q".data) ⟨0, 0, 0⟩)
        ∈ calculate_stats zeroCountersG
    ∧ (statsFor zeroCountersG ("q".data) ⟨0, 0, 0⟩).vpip = 0
    ∧ (statsFor zeroCountersG ("q".data) ⟨0, 0, 0⟩).pfr = 0
    ∧ (statsFor zeroCountersG ("q".data) ⟨0, 0, 0⟩).went_to_showdown = 0
    ∧ (statsFor zeroCountersG ("q".data) ⟨0, 0, 0⟩).threebet = 0
    ∧ (statsFor zeroCountersG ("q".data) ⟨0, 0, 0⟩).showdown_win = 0 :=
  ⟨(c9_calculate_stats_guards zeroCountersG ("q".data) ⟨0, 0, 0⟩).1 (by decide),
   ((c9_calculate_stats_guards zeroCountersG ("q".data) ⟨0, 0, 0⟩).2.1 (by decide)).1,
   ((c9_calculate_stats_guards zeroCountersG ("q".data) ⟨0, 0, 0⟩).2.1 (by decide)).2.1,
   ((c9_calculate_stats_guards zeroCountersG ("q".data) ⟨0, 0, 0⟩).2.1 (by decide)).2.2,
   (c9_calculate_stats_guards zeroCountersG ("q".data) ⟨0, 0, 0⟩).2.2.1
     (Or.inl (by decide)),
   (c9_calculate_stats_guards zeroCountersG ("q".data) ⟨0, 0, 0⟩).2.2.2 (by decide)⟩

/-- C10: the output domain of `calculate_stats` is exactly the key list of
the preflop histogram; concretely, a player who only shows and collects
(never folds/calls/raises preflop) is absent from the output even though
their showdown counter is non-zero. -/
theorem c10_stats_domain_eq_preflop_keys :
    (∀ g : Globals, (calculate_stats g).map Prod.fst = g.preflop.map Prod.fst)
    ∧ (calculate_stats (process_hands (parse_hands showsOnlyLogs))).map Prod.fst
        = [("p1".data : Player)]
    ∧ alookupD (process_hands (parse_hands showsOnlyLogs)).showdowns
        ("p2".data) 0 = 1
    ∧ alookup (calculate_stats (process_hands (parse_hands showsOnlyLogs)))
        ("p2".data) = none := by
  refine ⟨?_, by decide, by decide, by decide⟩
  intro g
  unfold calculate_stats
  rw [List.map_map]
  rfl

end PokerHUD
